import Mathlib

/-!
Shallow embedding of the busyedge market-data backend
(`src/backend/app/services/market_data.py`, `fear_greed.py`, `funding.py`,
and the route layer `src/backend/app/api/market.py`), together with
theorems settling the specification claims about its caching,
stale-fallback and dashboard-composition behaviour.

Modelling conventions:
- Python dicts that are used as insertion-ordered key/value maps are
  embedded as association lists (`List (key × value)`) with at most one
  binding per key; `dictInsert` mirrors `d[k] = v` (overwrite in place,
  keeping the original position, else append) and `dictGet` mirrors
  `d.get(k)`.
- `time()` is an explicit `now : ℤ` argument; the wall clock formatting
  helpers (`strftime`) are embedded as injective deterministic renderings
  of the epoch timestamp, since no claim depends on the calendar text.
- Monetary values and funding rates are embedded as `ℚ`.
- An HTTP fan-out is embedded by passing the outcome of each upstream
  GET (`FetchResult`) as an argument; `httpx.HTTPStatusError` and
  `httpx.RequestError` are the two failure constructors, and each
  service's `_request_json`-style translation into a FastAPI
  `HTTPException` is embedded explicitly with its detail strings.
- `deepcopy` on every cache read/write gives the Python code value
  semantics for cache payloads, which the pure embedding has natively;
  the in-place dict mutations of `get_current_safe` are embedded as
  functional record updates of the returned copy, leaving the stored
  cache state untouched, exactly as the `deepcopy` calls arrange.
-/

set_option autoImplicit false

deriving instance DecidableEq for Except

namespace BusyEdge

/-! ### Insertion-ordered dictionaries as association lists -/

/-- `d.get(k)`: first binding for `k`. -/
def dictGet {α : Type} (k : String) : List (String × α) → Option α
  | [] => none
  | (k2, v) :: rest => if k2 = k then some v else dictGet k rest

/-- `d[k] = v`: overwrite in place (keeping the original position) if the key
is present, otherwise append at the end — Python dict assignment order. -/
def dictInsert {α : Type} (k : String) (v : α) : List (String × α) → List (String × α)
  | [] => [(k, v)]
  | (k2, v2) :: rest => if k2 = k then (k, v) :: rest else (k2, v2) :: dictInsert k v rest

/-- `d[k] = f(d[k])`: update the value at `k` in place; no-op when the key is
absent (the callers below only modify keys they have just inserted). -/
def dictModify {α : Type} (k : String) (f : α → α) : List (String × α) → List (String × α)
  | [] => []
  | (k2, v) :: rest => if k2 = k then (k2, f v) :: rest else (k2, v) :: dictModify k f rest

/-! ### Fetch client and error taxonomy -/

/-- FastAPI `HTTPException(status_code=..., detail=...)`. -/
structure HTTPException where
  status_code : ℕ
  detail : String
deriving Repr, DecidableEq

/-- Outcome of one upstream `httpx` GET: the parsed JSON payload on a 2xx
response, `httpStatusError` for `httpx.HTTPStatusError` (non-2xx status),
`requestError` for `httpx.RequestError` (timeout / DNS / connection). -/
inductive FetchResult (α : Type) where
  | ok (payload : α)
  | httpStatusError (code : ℕ)
  | requestError
deriving Repr, DecidableEq

/-! ### CoinGecko market-data service (`market_data.py`) -/

/-- One coin's entry in the `/simple/price` response payload. -/
structure CoinData where
  usd : Option ℚ
  usd_market_cap : Option ℚ
  usd_24h_vol : Option ℚ
  usd_24h_change : Option ℚ
  last_updated_at : Option ℤ
deriving Repr, DecidableEq

/-- `/simple/price` payload: map from coin id to its data. -/
abbrev SimplePayload : Type := List (String × CoinData)

/-- Normalized price row built by `get_simple_prices`. -/
structure PriceRow where
  id : String
  symbol : String
  price_usd : Option ℚ
  market_cap : Option ℚ
  volume_24h : Option ℚ
  change_24h_pct : Option ℚ
  last_updated_at : Option ℤ
deriving Repr, DecidableEq, Inhabited

/-- A `_simple_prices_cache` entry: `{"cached_at": time(), "data": rows}`. -/
structure PricesCacheEntry where
  cached_at : ℤ
  data : List PriceRow
deriving Repr, DecidableEq

/-- `data.get("data", {})` of the `/global` payload, with the nested
`total_market_cap`/`total_volume`/`market_cap_percentage` currency maps
projected to their `usd`/`btc`/`eth` entries. -/
structure GlobalPayload where
  active_cryptocurrencies : Option ℤ
  markets : Option ℤ
  total_market_cap_usd : Option ℚ
  total_volume_usd : Option ℚ
  btc_pct : Option ℚ
  eth_pct : Option ℚ
  market_cap_change_percentage_24h_usd : Option ℚ
deriving Repr, DecidableEq

/-- Normalized output of `get_global_overview`. -/
structure GlobalOverview where
  active_cryptocurrencies : Option ℤ
  markets : Option ℤ
  total_market_cap_usd : Option ℚ
  total_volume_24h_usd : Option ℚ
  btc_dominance_pct : Option ℚ
  eth_dominance_pct : Option ℚ
  market_cap_change_24h_pct : Option ℚ
deriving Repr, DecidableEq

/-- The `item` object of one `/search/trending` entry. -/
structure TrendItem where
  id : Option String
  name : Option String
  symbol : Option String
  market_cap_rank : Option ℤ
  thumb : Option String
  score : Option ℤ
deriving Repr, DecidableEq

/-- `/search/trending` payload: `{"coins": [{"item": {...}}, ...]}`; a
missing `item` key reads as the empty dict (all fields absent). -/
structure TrendingPayload where
  coins : List (Option TrendItem)
deriving Repr, DecidableEq

/-- Output of `get_market_overview`: `{"global": ..., "trending": ...}`. -/
structure Overview where
  globalStats : GlobalOverview
  trending : List TrendItem
deriving Repr, DecidableEq

/-- An `_overview_cache` entry. -/
structure OverviewCacheEntry where
  cached_at : ℤ
  data : Overview
deriving Repr, DecidableEq

/-- Mutable state of `CoinGeckoService` (ttl is the constructor argument
`cache_ttl_seconds`, default 60). -/
structure CGState where
  cache_ttl_seconds : ℤ
  simple_prices_cache : List (String × PricesCacheEntry)
  overview_cache : Option OverviewCacheEntry
deriving Repr, DecidableEq

def DEFAULT_COIN_IDS : List String := ["bitcoin", "ethereum", "solana", "ripple", "dogecoin"]

def COIN_SYMBOL_MAP : List (String × String) :=
  [("bitcoin", "BTC"), ("ethereum", "ETH"), ("solana", "SOL"), ("ripple", "XRP"), ("dogecoin", "DOGE")]

/-- `_is_cache_fresh`: `(time() - cached_at) <= self.cache_ttl_seconds`. -/
def isCacheFresh (ttl now cached_at : ℤ) : Bool := now - cached_at ≤ ttl

/-- `_simple_prices_cache_key`: `if not coin_ids` (i.e. `None` or the empty
list) the default ids are joined; otherwise the ids as given, comma-joined
without sorting. -/
def simplePricesCacheKey (coin_ids : Option (List String)) : String :=
  match coin_ids with
  | none => String.intercalate "," DEFAULT_COIN_IDS
  | some [] => String.intercalate "," DEFAULT_COIN_IDS
  | some ids => String.intercalate "," ids

/-- `coin_ids or self.DEFAULT_COIN_IDS` (Python falsiness: `None` and `[]`). -/
def effectiveIds (coin_ids : Option (List String)) : List String :=
  match coin_ids with
  | none => DEFAULT_COIN_IDS
  | some [] => DEFAULT_COIN_IDS
  | some ids => ids

/-- `{str(row.get("id")): row for row in rows if row.get("id")}` — rows with
a falsy (empty) id are skipped; later duplicates overwrite earlier ones. -/
def rowById (rows : List PriceRow) : List (String × PriceRow) :=
  rows.foldl (fun acc row => if row.id = "" then acc else dictInsert row.id row acc) []

/-- Does `entry` cover every requested id (`requested.issubset(set(row_by_id))`)? -/
def coversRequested (reqList : List String) (entry : PricesCacheEntry) : Bool :=
  reqList.all (fun cid => (dictGet cid (rowById entry.data)).isSome)

/-- The superset-projection search of `get_cached_simple_prices`: first cache
entry (dict iteration order) whose rows cover every requested id, sliced to
one row per requested id in requested order. -/
def findSupersetSlice (reqList : List String) : List (String × PricesCacheEntry) → Option (List PriceRow)
  | [] => none
  | (_, entry) :: rest =>
    if coversRequested reqList entry then
      some (reqList.filterMap (fun cid => dictGet cid (rowById entry.data)))
    else findSupersetSlice reqList rest

/-- `get_cached_simple_prices`: exact-key hit returns the whole stored row
list; otherwise the superset-projection search; `deepcopy` is identity under
value semantics. -/
def getCachedSimplePrices (st : CGState) (coin_ids : Option (List String)) : Option (List PriceRow) :=
  match dictGet (simplePricesCacheKey coin_ids) st.simple_prices_cache with
  | some entry => some entry.data
  | none => findSupersetSlice (effectiveIds coin_ids) st.simple_prices_cache

/-- `get_fresh_cached_simple_prices`: exact key only, and only when fresh. -/
def getFreshCachedSimplePrices (st : CGState) (now : ℤ) (coin_ids : Option (List String)) :
    Option (List PriceRow) :=
  match dictGet (simplePricesCacheKey coin_ids) st.simple_prices_cache with
  | none => none
  | some entry =>
    if isCacheFresh st.cache_ttl_seconds now entry.cached_at then some entry.data else none

/-- `get_cached_market_overview`. -/
def getCachedMarketOverview (st : CGState) : Option Overview :=
  match st.overview_cache with
  | none => none
  | some entry => some entry.data

/-- `get_fresh_cached_market_overview`. -/
def getFreshCachedMarketOverview (st : CGState) (now : ℤ) : Option Overview :=
  match st.overview_cache with
  | none => none
  | some entry =>
    if isCacheFresh st.cache_ttl_seconds now entry.cached_at then some entry.data else none

/-- `_request_json`'s exception translation: `HTTPStatusError` becomes a 502
`HTTPException` carrying the upstream status in its detail, `RequestError`
becomes a 502 connectivity message. -/
def requestJson {α : Type} (r : FetchResult α) : Except HTTPException α :=
  match r with
  | .ok payload => .ok payload
  | .httpStatusError code => .error ⟨502, "CoinGecko API 錯誤: " ++ toString code⟩
  | .requestError => .error ⟨502, "無法連線 CoinGecko API"⟩

/-- `str.upper()` at the character level. -/
def upperChars (s : String) : String := String.mk (s.toList.map Char.toUpper)

/-- One normalized row of `get_simple_prices` for a coin present in the
payload: symbol from `COIN_SYMBOL_MAP` with `coin_id.upper()` default. -/
def mkPriceRow (coin_id : String) (cd : CoinData) : PriceRow :=
  { id := coin_id
    symbol := (dictGet coin_id COIN_SYMBOL_MAP).getD (upperChars coin_id)
    price_usd := cd.usd
    market_cap := cd.usd_market_cap
    volume_24h := cd.usd_24h_vol
    change_24h_pct := cd.usd_24h_change
    last_updated_at := cd.last_updated_at }

/-- Sort key for the market-cap sort: `item.get("market_cap") or 0` (`None`
reads as 0). -/
def marketCapKey (row : PriceRow) : ℚ := row.market_cap.getD 0

/-- Insert a row into a descending-sorted list, before the first element
whose key is `≤` its own — so rows with equal keys keep their original
relative order. -/
def insertByMarketCapDesc (r : PriceRow) : List PriceRow → List PriceRow
  | [] => [r]
  | x :: xs =>
    if marketCapKey x ≤ marketCapKey r then r :: x :: xs
    else x :: insertByMarketCapDesc r xs

/-- `sorted(data, key=..., reverse=True)`: stable descending sort by market
cap, as a structural insertion sort. -/
def sortByMarketCapDesc (rows : List PriceRow) : List PriceRow :=
  rows.foldr insertByMarketCapDesc []

/-- `get_simple_prices`: fresh-cache short-circuit, else live fetch; on fetch
failure fall back to the any-age cache when possible, else re-raise; on
success normalize, sort, write the cache and return. Returns the rows and
the updated service state. -/
def getSimplePrices (st : CGState) (now : ℤ) (coin_ids : Option (List String))
    (fetch : FetchResult SimplePayload) :
    Except HTTPException (List PriceRow × CGState) :=
  let ids := effectiveIds coin_ids
  match getFreshCachedSimplePrices st now (some ids) with
  | some fresh => .ok (fresh, st)
  | none =>
    match requestJson fetch with
    | .error exc =>
      match getCachedSimplePrices st (some ids) with
      | some cached => .ok (cached, st)
      | none => .error exc
    | .ok payload =>
      let data := ids.filterMap (fun coin_id => (dictGet coin_id payload).map (mkPriceRow coin_id))
      let sorted_data := sortByMarketCapDesc data
      let cache_key := simplePricesCacheKey (some ids)
      .ok (sorted_data,
        { st with simple_prices_cache :=
            dictInsert cache_key ⟨now, sorted_data⟩ st.simple_prices_cache })

/-- `get_trending` with default `limit = 5`: first `limit` coins, a missing
`item` dict defaulting every field to absent. -/
def getTrending (payload : TrendingPayload) (limit : ℕ := 5) : List TrendItem :=
  (payload.coins.take limit).map (fun entry => entry.getD ⟨none, none, none, none, none, none⟩)

/-- `get_global_overview`'s normalization of the `/global` payload. -/
def mkGlobalOverview (g : GlobalPayload) : GlobalOverview :=
  { active_cryptocurrencies := g.active_cryptocurrencies
    markets := g.markets
    total_market_cap_usd := g.total_market_cap_usd
    total_volume_24h_usd := g.total_volume_usd
    btc_dominance_pct := g.btc_pct
    eth_dominance_pct := g.eth_pct
    market_cap_change_24h_pct := g.market_cap_change_percentage_24h_usd }

/-- The live part of `get_market_overview`: fetch `/global` then
`/search/trending` (the trending fetch is not attempted when the global
fetch fails) and assemble the overview. -/
def overviewLive (gfetch : FetchResult GlobalPayload) (tfetch : FetchResult TrendingPayload) :
    Except HTTPException Overview := do
  let g ← requestJson gfetch
  let t ← requestJson tfetch
  pure ⟨mkGlobalOverview g, getTrending t⟩

/-- `get_market_overview`: fresh-cache short-circuit, else the live fetch
pair; on failure fall back to the any-age overview cache, else re-raise; on
success cache and return. -/
def getMarketOverview (st : CGState) (now : ℤ)
    (gfetch : FetchResult GlobalPayload) (tfetch : FetchResult TrendingPayload) :
    Except HTTPException (Overview × CGState) :=
  match getFreshCachedMarketOverview st now with
  | some fresh => .ok (fresh, st)
  | none =>
    match overviewLive gfetch tfetch with
    | .ok overview =>
      .ok (overview, { st with overview_cache := some ⟨now, overview⟩ })
    | .error exc =>
      match getCachedMarketOverview st with
      | some cached => .ok (cached, st)
      | none => .error exc

/-! ### Fear & Greed service (`fear_greed.py`) -/

/-- One element of the alternative.me `data` array, with `value` and
`timestamp` already through `int(...)`. -/
structure FngItem where
  value : ℤ
  value_classification : String
  timestamp : ℤ
deriving Repr, DecidableEq

/-- `datetime.fromtimestamp(ts, UTC).strftime("%Y-%m-%d %H:%M:%S UTC")`,
embedded as an injective deterministic rendering of the epoch timestamp
(no claim depends on the calendar text). -/
def formatUtcTime (ts : ℤ) : String := "utc:" ++ toString ts

/-- `datetime.fromtimestamp(int(ts)).strftime("%Y-%m-%d")`, embedded the
same way. -/
def formatDate (ts : ℤ) : String := "date:" ++ toString ts

/-- The JSON object `get_current_safe` hands back: the four fields built by
`get_current` plus the keys the safe wrapper may add in place
(`is_stale`, `data_source`, `fallback_reason`), absent until assigned. -/
structure FngCurrent where
  value : ℤ
  value_classification : String
  timestamp : ℤ
  time_updated : String
  is_stale : Option Bool
  data_source : Option String
  fallback_reason : Option String
deriving Repr, DecidableEq

/-- One normalized row of `get_history`. -/
structure FngHistRow where
  value : ℤ
  value_classification : String
  timestamp : ℤ
  date : String
deriving Repr, DecidableEq

/-- Mutable state of `FearGreedService`: `_current_cache` and
`_history_cache` (keyed by the requested `days`). -/
structure FngState where
  current_cache : Option FngCurrent
  history_cache : List (ℕ × List FngHistRow)
deriving Repr, DecidableEq

/-- `days`-keyed read of `_history_cache`. -/
def fngHistGet (days : ℕ) : List (ℕ × List FngHistRow) → Option (List FngHistRow)
  | [] => none
  | (d, v) :: rest => if d = days then some v else fngHistGet days rest

/-- `days`-keyed write of `_history_cache` (Python dict assignment). -/
def fngHistPut (days : ℕ) (v : List FngHistRow) : List (ℕ × List FngHistRow) → List (ℕ × List FngHistRow)
  | [] => [(days, v)]
  | (d, v2) :: rest => if d = days then (days, v) :: rest else (d, v2) :: fngHistPut days v rest

/-- `get_cached_current` (`deepcopy` is identity under value semantics). -/
def getCachedCurrent (st : FngState) : Option FngCurrent := st.current_cache

/-- `get_cached_history`. -/
def getCachedHistory (st : FngState) (days : ℕ) : Option (List FngHistRow) :=
  fngHistGet days st.history_cache

/-- The Fear & Greed `_request`-level exception translation (the
`except httpx.*` clauses of `get_current`/`get_history`). -/
def fngRequest {α : Type} (r : FetchResult α) : Except HTTPException α :=
  match r with
  | .ok payload => .ok payload
  | .httpStatusError code => .error ⟨502, "Fear & Greed API 錯誤: " ++ toString code⟩
  | .requestError => .error ⟨502, "無法連線 Fear & Greed API"⟩

/-- `get_current`: on a 2xx response with an empty/missing `data` array raise
502 "no data"; otherwise normalize `data[0]`, store an unannotated deep copy
in `_current_cache`, and return the record. -/
def getCurrent (st : FngState) (fetch : FetchResult (List FngItem)) :
    Except HTTPException (FngCurrent × FngState) :=
  match fngRequest fetch with
  | .error exc => .error exc
  | .ok items =>
    match items with
    | [] => .error ⟨502, "Fear & Greed API 無回傳數據"⟩
    | latest :: _ =>
      let result : FngCurrent :=
        { value := latest.value
          value_classification := latest.value_classification
          timestamp := latest.timestamp
          time_updated := formatUtcTime latest.timestamp
          is_stale := none
          data_source := none
          fallback_reason := none }
      .ok (result, { st with current_cache := some result })

/-- One normalized history row. -/
def mkHistRow (item : FngItem) : FngHistRow :=
  { value := item.value
    value_classification := item.value_classification
    timestamp := item.timestamp
    date := formatDate item.timestamp }

/-- `get_history`: requests `limit = min(days, 100)` items (the fetch
outcome is a function of the limit actually sent), normalizes every returned
item in order, caches under `days` and returns. -/
def getHistory (st : FngState) (days : ℕ) (fetch : ℕ → FetchResult (List FngItem)) :
    Except HTTPException (List FngHistRow × FngState) :=
  let limit := min days 100
  match fngRequest (fetch limit) with
  | .error exc => .error exc
  | .ok items =>
    let history := items.map mkHistRow
    .ok (history, { st with history_cache := fngHistPut days history st.history_cache })

/-- `get_current_safe`: on success annotate the returned record with
`is_stale = False` and the live data source (the cached copy stays
unannotated); on failure annotate the cached copy with `is_stale = True`,
the cache data source and the failure's detail, or re-raise when no cache
exists. -/
def getCurrentSafe (st : FngState) (fetch : FetchResult (List FngItem)) :
    Except HTTPException (FngCurrent × FngState) :=
  match getCurrent st fetch with
  | .ok (data, st2) =>
    .ok ({ data with is_stale := some false, data_source := some "alternative_me" }, st2)
  | .error exc =>
    match getCachedCurrent st with
    | none => .error exc
    | some cached =>
      .ok ({ cached with
              is_stale := some true
              data_source := some "alternative_me_cache"
              fallback_reason := some exc.detail }, st)

/-- `get_history_safe`: fall back to the `days`-keyed cached history, else
re-raise. -/
def getHistorySafe (st : FngState) (days : ℕ) (fetch : ℕ → FetchResult (List FngItem)) :
    Except HTTPException (List FngHistRow × FngState) :=
  match getHistory st days fetch with
  | .ok res => .ok res
  | .error exc =>
    match getCachedHistory st days with
    | none => .error exc
    | some cached => .ok (cached, st)

/-! ### Funding-rate service (`funding.py`) -/

def DEFAULT_SYMBOLS : List String := ["BTCUSDT", "ETHUSDT", "SOLUSDT"]

/-- `symbols or self.DEFAULT_SYMBOLS` (Python falsiness: `None` and `[]`). -/
def effectiveSymbols (symbols : Option (List String)) : List String :=
  match symbols with
  | none => DEFAULT_SYMBOLS
  | some [] => DEFAULT_SYMBOLS
  | some l => l

/-- One item of the Binance `premiumIndex` list payload. -/
structure BinanceItem where
  symbol : Option String
  lastFundingRate : Option ℚ
  nextFundingTime : Option ℤ
deriving Repr, DecidableEq

/-- One item of the Bybit `result.list` payload. -/
structure BybitItem where
  symbol : Option String
  fundingRate : Option ℚ
  nextFundingTime : Option ℤ
deriving Repr, DecidableEq

/-- A per-exchange row as built by `_fetch_binance`/`_fetch_bybit`. -/
structure SourceRow where
  symbol : String
  source : String
  funding_rate : Option ℚ
  next_funding_time : Option ℤ
deriving Repr, DecidableEq

/-- The per-exchange sub-object of a merged row. -/
structure ExchangeQuote where
  funding_rate : Option ℚ
  next_funding_time : Option ℤ
deriving Repr, DecidableEq

/-- One merged funding row. -/
structure FundingRow where
  symbol : String
  binance : Option ExchangeQuote
  bybit : Option ExchangeQuote
  average_rate : Option ℚ
deriving Repr, DecidableEq

/-- `_fetch_binance`: raise on transport/status failure; otherwise keep the
items whose `symbol` is among the requested ones, with
`float(item.get("lastFundingRate", 0))` (absent reads as 0, never null). -/
def fetchBinance (symbols : List String) (r : FetchResult (List BinanceItem)) :
    Except Unit (List SourceRow) :=
  match r with
  | .httpStatusError _ => .error ()
  | .requestError => .error ()
  | .ok payload =>
    .ok (payload.filterMap (fun item =>
      match item.symbol with
      | none => none
      | some s =>
        if s ∈ symbols then
          some { symbol := s, source := "binance",
                 funding_rate := some (item.lastFundingRate.getD 0),
                 next_funding_time := item.nextFundingTime }
        else none))

/-- `_fetch_bybit`: as above but `fundingRate` may be null and stays null. -/
def fetchBybit (symbols : List String) (r : FetchResult (List BybitItem)) :
    Except Unit (List SourceRow) :=
  match r with
  | .httpStatusError _ => .error ()
  | .requestError => .error ()
  | .ok payload =>
    .ok (payload.filterMap (fun item =>
      match item.symbol with
      | none => none
      | some s =>
        if s ∈ symbols then
          some { symbol := s, source := "bybit",
                 funding_rate := item.fundingRate,
                 next_funding_time := item.nextFundingTime }
        else none))

/-- The `combined` dict comprehension: one all-null row per target symbol
(duplicates keep the first position). -/
def initCombined (targets : List String) : List (String × FundingRow) :=
  targets.foldl
    (fun acc s => dictInsert s { symbol := s, binance := none, bybit := none, average_rate := none } acc)
    []

/-- The first merge pass: write each Binance row into its symbol's slot. -/
def applyBinance (c : List (String × FundingRow)) (rows : List SourceRow) : List (String × FundingRow) :=
  rows.foldl
    (fun acc r => dictModify r.symbol
      (fun fr => { fr with binance := some ⟨r.funding_rate, r.next_funding_time⟩ }) acc)
    c

/-- The second merge pass, for Bybit. -/
def applyBybit (c : List (String × FundingRow)) (rows : List SourceRow) : List (String × FundingRow) :=
  rows.foldl
    (fun acc r => dictModify r.symbol
      (fun fr => { fr with bybit := some ⟨r.funding_rate, r.next_funding_time⟩ }) acc)
    c

/-- The `rates` list of the averaging pass: the non-null per-exchange rates
of a row (a present exchange sub-dict is always truthy). -/
def collectRates (fr : FundingRow) : List ℚ :=
  (match fr.binance with
   | some q => match q.funding_rate with | some r => [r] | none => []
   | none => []) ++
  (match fr.bybit with
   | some q => match q.funding_rate with | some r => [r] | none => []
   | none => [])

/-- The averaging pass on one row: `sum(rates) / len(rates)` when `rates` is
non-empty, else `average_rate` is left as initialized. -/
def setAverage (fr : FundingRow) : FundingRow :=
  let rates := collectRates fr
  if rates = [] then fr
  else { fr with average_rate := some (rates.sum / rates.length) }

/-- `get_merged_funding_rates`: each exchange fetch failure
(`httpx.RequestError` / `httpx.HTTPStatusError`) is absorbed as an empty
list; the merged dict is built, filled from both sources, averaged, and its
values returned in insertion order. -/
def getMergedFundingRates (symbols : Option (List String))
    (bfetch : FetchResult (List BinanceItem)) (yfetch : FetchResult (List BybitItem)) :
    List FundingRow :=
  let targets := effectiveSymbols symbols
  let binance_data := match fetchBinance targets bfetch with
    | .ok d => d
    | .error _ => []
  let bybit_data := match fetchBybit targets yfetch with
    | .ok d => d
    | .error _ => []
  ((applyBybit (applyBinance (initCombined targets) binance_data) bybit_data).map
    (fun kv => setAverage kv.2))

/-- First-occurrence deduplication, matching the key order produced by a
Python dict comprehension over a list with possible duplicates. -/
def dedupFirst (l : List String) : List String :=
  l.foldl (fun ks s => if s ∈ ks then ks else ks ++ [s]) []

/-! ### Route layer (`api/market.py`) -/

/-- `str.split(",")` at the character level. -/
def splitCommaChars : List Char → List (List Char)
  | [] => [[]]
  | c :: rest =>
    if c = ',' then [] :: splitCommaChars rest
    else
      match splitCommaChars rest with
      | [] => [[c]]
      | w :: ws => (c :: w) :: ws

/-- `str.strip()`: drop whitespace from both ends. -/
def stripChars (l : List Char) : List Char :=
  ((l.dropWhile Char.isWhitespace).reverse.dropWhile Char.isWhitespace).reverse

/-- `_parse_csv_param`: `None`/empty input gives `None`; otherwise split on
commas, strip items, drop empties, and give `None` when nothing is left. -/
def parseCsvParam (value : Option String) : Option (List String) :=
  match value with
  | none => none
  | some v =>
    if v = "" then none
    else
      match (splitCommaChars v.toList).map (fun cs => String.mk (stripChars cs))
          |>.filter (· ≠ "") with
      | [] => none
      | parsed => some parsed

/-- The JSON object returned by the single-resource routes
(`/market/prices`, `/market/overview`): `fallback_reason` is only present on
the fallback branch. -/
structure ResourceResponse (α : Type) where
  data : α
  is_stale : Bool
  data_source : String
  fallback_reason : Option String
deriving Repr, DecidableEq

/-- `GET /market/prices` (`get_market_prices`): call the service; a value
return is labelled live (`is_stale = False`); only an escaping
`HTTPException` reaches the route's cache-fallback branch. -/
def getMarketPrices (st : CGState) (now : ℤ) (coin_ids : Option String)
    (fetch : FetchResult SimplePayload) :
    Except HTTPException (ResourceResponse (List PriceRow) × CGState) :=
  let parsed_coin_ids := parseCsvParam coin_ids
  match getSimplePrices st now parsed_coin_ids fetch with
  | .ok (prices, st2) => .ok (⟨prices, false, "coingecko", none⟩, st2)
  | .error exc =>
    match getCachedSimplePrices st parsed_coin_ids with
    | none => .error exc
    | some cached => .ok (⟨cached, true, "coingecko_cache", some exc.detail⟩, st)

/-- `GET /market/overview` (`get_market_overview` route handler). -/
def getMarketOverviewRoute (st : CGState) (now : ℤ)
    (gfetch : FetchResult GlobalPayload) (tfetch : FetchResult TrendingPayload) :
    Except HTTPException (ResourceResponse Overview × CGState) :=
  match getMarketOverview st now gfetch tfetch with
  | .ok (overview, st2) => .ok (⟨overview, false, "coingecko", none⟩, st2)
  | .error exc =>
    match getCachedMarketOverview st with
    | none => .error exc
    | some cached => .ok (⟨cached, true, "coingecko_cache", some exc.detail⟩, st)

/-- The `data` object assembled by `get_dashboard_data`. -/
structure DashboardData where
  generated_at : String
  prices : List PriceRow
  overview : Overview
  funding : List FundingRow
  is_stale : Bool
  data_source : String
  stale_reasons : List String
deriving Repr, DecidableEq

/-- `GET /market/dashboard` (`get_dashboard_data`): gather the three tasks
(each outcome collected independently, no short-circuit), then compose.
The prices and overview tasks are run against the shared service state
(they touch disjoint cache fields, so this sequential threading realizes
every interleaving); `funding_result` is the gathered outcome of the
funding task — normally `.ok (getMergedFundingRates (parseCsvParam symbols)
bfetch yfetch)`, since that function absorbs upstream fetch failures
itself, with `.error` standing for an exception escaping the funding task.
The composer's fallback cache reads happen after the gather, i.e. against
the post-task state. -/
def getDashboardData (st : CGState) (now : ℤ) (generated_at : String)
    (coin_ids : Option String)
    (pfetch : FetchResult SimplePayload) (gfetch : FetchResult GlobalPayload)
    (tfetch : FetchResult TrendingPayload)
    (funding_result : Except Unit (List FundingRow)) :
    Except HTTPException (DashboardData × CGState) :=
  let parsed_coin_ids := parseCsvParam coin_ids
  let prices_result := getSimplePrices st now parsed_coin_ids pfetch
  let st1 := match prices_result with | .ok (_, s) => s | .error _ => st
  let overview_result := getMarketOverview st1 now gfetch tfetch
  let st2 := match overview_result with | .ok (_, s) => s | .error _ => st1
  let pricesPart : Except HTTPException (List PriceRow × List String × Bool) :=
    match prices_result with
    | .ok (p, _) => .ok (p, [], false)
    | .error _ =>
      match getCachedSimplePrices st2 parsed_coin_ids with
      | none => .error ⟨502, "無法取得即時價格資料，且沒有可用快取"⟩
      | some cached => .ok (cached, ["prices: coingecko_cache"], true)
  let overviewPart : Except HTTPException (Overview × List String × Bool) :=
    match overview_result with
    | .ok (o, _) => .ok (o, [], false)
    | .error _ =>
      match getCachedMarketOverview st2 with
      | none => .error ⟨502, "無法取得市場概覽資料，且沒有可用快取"⟩
      | some cached => .ok (cached, ["overview: coingecko_cache"], true)
  let fundingPart : List FundingRow × List String × Bool :=
    match funding_result with
    | .ok f => (f, [], false)
    | .error _ => ([], ["funding: unavailable"], true)
  match pricesPart with
  | .error exc => .error exc
  | .ok (prices, preasons, pstale) =>
    match overviewPart with
    | .error exc => .error exc
    | .ok (overview, oreasons, ostale) =>
      let (funding, freasons, fstale) := fundingPart
      let is_stale := pstale || ostale || fstale
      .ok ({ generated_at := generated_at
             prices := prices
             overview := overview
             funding := funding
             is_stale := is_stale
             data_source := if is_stale then "partial_cache" else "live"
             stale_reasons := preasons ++ oreasons ++ freasons }, st2)

/-! ### Concrete fixtures used by witnesses and counterexamples -/

def btcRow : PriceRow :=
  { id := "bitcoin", symbol := "BTC", price_usd := some 50000, market_cap := some 1000,
    volume_24h := some 10, change_24h_pct := some 1, last_updated_at := some 5 }

def ethRow : PriceRow :=
  { id := "ethereum", symbol := "ETH", price_usd := some 3000, market_cap := some 500,
    volume_24h := some 5, change_24h_pct := some 2, last_updated_at := some 5 }

def solRow : PriceRow :=
  { id := "solana", symbol := "SOL", price_usd := some 150, market_cap := some 60,
    volume_24h := some 3, change_24h_pct := some 3, last_updated_at := some 5 }

/-- A service state whose simple-prices cache holds one entry under the key
`"bitcoin"` (cached at time 0, ttl 60) and no overview entry. -/
def demoPricesState : CGState :=
  { cache_ttl_seconds := 60
    simple_prices_cache := [("bitcoin", ⟨0, [btcRow]⟩)]
    overview_cache := none }

/-- A state caching the id set `{bitcoin, ethereum, solana}` under its
comma-joined key. -/
def demoSupersetState : CGState :=
  { cache_ttl_seconds := 60
    simple_prices_cache := [("bitcoin,ethereum,solana", ⟨0, [btcRow, ethRow, solRow]⟩)]
    overview_cache := none }

/-- A concrete live overview value. -/
def demoOverview : Overview :=
  { globalStats :=
      { active_cryptocurrencies := some 5000
        markets := some 200
        total_market_cap_usd := some 2000000
        total_volume_24h_usd := some 90000
        btc_dominance_pct := some 50
        eth_dominance_pct := some 17
        market_cap_change_24h_pct := some 1 }
    trending := [] }

/-- A state whose overview cache holds `demoOverview` (cached at 0, ttl 60)
and whose simple-prices cache is empty. -/
def demoOverviewState : CGState :=
  { cache_ttl_seconds := 60
    simple_prices_cache := []
    overview_cache := some ⟨0, demoOverview⟩ }

/-- A CoinGecko service state with both caches empty. -/
def emptyCG : CGState :=
  { cache_ttl_seconds := 60
    simple_prices_cache := []
    overview_cache := none }

/-- A Fear & Greed service state with both caches empty. -/
def emptyFng : FngState := { current_cache := none, history_cache := [] }

/-- A two-coin `/simple/price` payload (bitcoin, ethereum). -/
def demoPayload : SimplePayload :=
  [("bitcoin", ⟨some 50000, some 1000, some 10, some 1, some 5⟩),
   ("ethereum", ⟨some 3000, some 500, some 5, some 2, some 5⟩)]

/-- The state left behind by a successful two-coin fetch at time 0. -/
def demoTwoState : CGState :=
  { cache_ttl_seconds := 60
    simple_prices_cache := [("bitcoin,ethereum", ⟨0, [btcRow, ethRow]⟩)]
    overview_cache := none }

/-- Two Fear & Greed history items, newest first. -/
def demoHistItems : List FngItem := [⟨50, "Neutral", 100⟩, ⟨60, "Greed", 99⟩]

/-- A history fetch that answers only the limit actually requested for
`days = 30`. -/
def demoHistFetch : ℕ → FetchResult (List FngItem) :=
  fun n => if n = 30 then .ok demoHistItems else .requestError

/-- The merged funding row produced for BTCUSDT when Binance reports rate
1/10000 and the Bybit call fails entirely. -/
def demoMergedRow : FundingRow :=
  { symbol := "BTCUSDT"
    binance := some ⟨some (1/10000), some 42⟩
    bybit := none
    average_rate := some (1/10000) }

/-- A state with fresh entries for both the two-coin price key and the
overview. -/
def demoDashState : CGState :=
  { cache_ttl_seconds := 60
    simple_prices_cache := [("bitcoin,ethereum", ⟨0, [btcRow, ethRow]⟩)]
    overview_cache := some ⟨0, demoOverview⟩ }

/-- Merged funding rows when both exchange calls fail. -/
def demoFundingBothFail : List FundingRow :=
  getMergedFundingRates (some ["BTCUSDT"]) .requestError .requestError

/-- The dashboard payload of a run where prices and overview come from
fresh cache hits and the funding task resolved to `demoFundingBothFail`. -/
def demoDashboard : DashboardData :=
  { generated_at := "g"
    prices := [btcRow, ethRow]
    overview := demoOverview
    funding := demoFundingBothFail
    is_stale := false
    data_source := "live"
    stale_reasons := [] }

/-- An unannotated Fear & Greed record as `get_current` stores it. -/
def demoFng : FngCurrent :=
  { value := 10, value_classification := "Extreme Fear", timestamp := 1000,
    time_updated := formatUtcTime 1000, is_stale := none, data_source := none,
    fallback_reason := none }

/-- A Fear & Greed service state whose current cache holds `demoFng`. -/
def demoFngState : FngState := { current_cache := some demoFng, history_cache := [] }

/-! ### Helper lemmas about the dictionary model -/

theorem dictGet_dictInsert {α : Type} (k k2 : String) (v : α) (l : List (String × α)) :
    dictGet k2 (dictInsert k v l) = if k = k2 then some v else dictGet k2 l := by
  induction l with
  | nil => simp [dictGet, dictInsert]
  | cons hd tl ih =>
    obtain ⟨k3, v3⟩ := hd
    by_cases h3 : k3 = k
    · subst h3
      by_cases h2 : k3 = k2
      · subst h2; simp [dictGet, dictInsert]
      · simp [dictGet, dictInsert, h2, Ne.symm h2]
    · by_cases h2 : k3 = k2
      · subst h2
        have : ¬ k = k3 := fun h => h3 h.symm
        simp [dictGet, dictInsert, h3, this]
      · simp [dictGet, dictInsert, h3, h2, ih]

theorem mem_dictInsert {α : Type} (kv : String × α) (k : String) (v : α) (l : List (String × α)) :
    kv ∈ dictInsert k v l → kv ∈ l ∨ kv = (k, v) := by
  induction l with
  | nil =>
    intro h
    rcases List.mem_cons.mp h with h2 | h2
    · exact Or.inr h2
    · cases h2
  | cons hd tl ih =>
    obtain ⟨k3, v3⟩ := hd
    intro h
    by_cases h3 : k3 = k
    · rw [show dictInsert k v ((k3, v3) :: tl) = (k, v) :: tl from by
        simp only [dictInsert, if_pos h3]] at h
      rcases List.mem_cons.mp h with h2 | h2
      · exact Or.inr h2
      · exact Or.inl (List.mem_cons_of_mem _ h2)
    · rw [show dictInsert k v ((k3, v3) :: tl) = (k3, v3) :: dictInsert k v tl from by
        simp only [dictInsert, if_neg h3]] at h
      rcases List.mem_cons.mp h with h2 | h2
      · exact Or.inl (h2 ▸ List.mem_cons_self _ _)
      · rcases ih h2 with h4 | h4
        · exact Or.inl (List.mem_cons_of_mem _ h4)
        · exact Or.inr h4

theorem mem_dictModify {α : Type} (kv : String × α) (k : String) (f : α → α) (l : List (String × α)) :
    kv ∈ dictModify k f l → kv ∈ l ∨ ∃ kv0, kv0 ∈ l ∧ kv = (kv0.1, f kv0.2) := by
  induction l with
  | nil => intro h; cases h
  | cons hd tl ih =>
    obtain ⟨k3, v3⟩ := hd
    intro h
    by_cases h3 : k3 = k
    · rw [show dictModify k f ((k3, v3) :: tl) = (k3, f v3) :: tl from by
        simp only [dictModify, if_pos h3]] at h
      rcases List.mem_cons.mp h with h2 | h2
      · exact Or.inr ⟨(k3, v3), List.mem_cons_self _ _, h2⟩
      · exact Or.inl (List.mem_cons_of_mem _ h2)
    · rw [show dictModify k f ((k3, v3) :: tl) = (k3, v3) :: dictModify k f tl from by
        simp only [dictModify, if_neg h3]] at h
      rcases List.mem_cons.mp h with h2 | h2
      · exact Or.inl (h2 ▸ List.mem_cons_self _ _)
      · rcases ih h2 with h4 | ⟨kv0, hm, he⟩
        · exact Or.inl (List.mem_cons_of_mem _ h4)
        · exact Or.inr ⟨kv0, List.mem_cons_of_mem _ hm, he⟩

theorem keys_dictModify {α : Type} (k : String) (f : α → α) (l : List (String × α)) :
    (dictModify k f l).map Prod.fst = l.map Prod.fst := by
  induction l with
  | nil => rfl
  | cons hd tl ih =>
    obtain ⟨k3, v3⟩ := hd
    by_cases h3 : k3 = k
    · simp [dictModify, h3]
    · simp [dictModify, h3, ih]

theorem keys_dictInsert {α : Type} (k : String) (v : α) (l : List (String × α)) :
    (dictInsert k v l).map Prod.fst =
      if k ∈ l.map Prod.fst then l.map Prod.fst else l.map Prod.fst ++ [k] := by
  induction l with
  | nil => simp [dictInsert]
  | cons hd tl ih =>
    obtain ⟨k3, v3⟩ := hd
    by_cases h3 : k3 = k
    · subst h3; simp [dictInsert]
    · have : ¬ k = k3 := fun h => h3 h.symm
      by_cases hm : k ∈ tl.map Prod.fst
      · simp [dictInsert, h3, ih, hm, this]
      · simp [dictInsert, h3, ih, hm, this]

/-- Every slot of the initial `combined` dict is the all-null row for its
own symbol. -/
theorem mem_initCombined (targets : List String) :
    ∀ kv ∈ initCombined targets, kv.2 = ⟨kv.1, none, none, none⟩ := by
  have aux : ∀ (ts : List String) (acc : List (String × FundingRow)),
      (∀ kv ∈ acc, kv.2 = ⟨kv.1, none, none, none⟩) →
      ∀ kv ∈ ts.foldl
          (fun a s => dictInsert s (⟨s, none, none, none⟩ : FundingRow) a) acc,
        kv.2 = ⟨kv.1, none, none, none⟩ := by
    intro ts
    induction ts with
    | nil => intro acc hacc kv hkv; exact hacc kv hkv
    | cons s ts ih =>
      intro acc hacc kv hkv
      refine ih _ ?_ kv hkv
      intro kv2 hkv2
      rcases mem_dictInsert kv2 s _ acc hkv2 with h | h
      · exact hacc kv2 h
      · rw [h]
  intro kv hkv
  exact aux targets [] (by intro kv2 h2; cases h2) kv hkv

/-- A merge pass (a fold of `dictModify` steps keyed by each source row's
symbol) preserves any per-binding invariant its update function
preserves. -/
theorem applyPass_inv (P : String × FundingRow → Prop)
    (upd : SourceRow → FundingRow → FundingRow)
    (hupd : ∀ r k fr, P (k, fr) → P (k, upd r fr)) :
    ∀ (rows : List SourceRow) (c : List (String × FundingRow)),
      (∀ kv ∈ c, P kv) →
      ∀ kv ∈ rows.foldl (fun acc r => dictModify r.symbol (upd r) acc) c, P kv := by
  intro rows
  induction rows with
  | nil => intro c hc kv hkv; exact hc kv hkv
  | cons r rows ih =>
    intro c hc kv hkv
    refine ih _ ?_ kv hkv
    intro kv2 hkv2
    rcases mem_dictModify kv2 r.symbol (upd r) c hkv2 with h | ⟨kv0, hm, he⟩
    · exact hc kv2 h
    · rw [he]
      exact hupd r kv0.1 kv0.2 (hc kv0 hm)

/-- After both merge passes, each binding still maps a key to a row whose
`symbol` is that key and whose `average_rate` is still unset. -/
theorem combined_inv (targets : List String) (b y : List SourceRow) :
    ∀ kv ∈ applyBybit (applyBinance (initCombined targets) b) y,
      kv.2.symbol = kv.1 ∧ kv.2.average_rate = none := by
  have h0 : ∀ kv ∈ initCombined targets, kv.2.symbol = kv.1 ∧ kv.2.average_rate = none := by
    intro kv hkv
    rw [mem_initCombined targets kv hkv]
    exact ⟨rfl, rfl⟩
  have h1 : ∀ kv ∈ applyBinance (initCombined targets) b,
      kv.2.symbol = kv.1 ∧ kv.2.average_rate = none := by
    intro kv hkv
    refine applyPass_inv (fun kv => kv.2.symbol = kv.1 ∧ kv.2.average_rate = none)
      (fun r fr => { fr with binance := some ⟨r.funding_rate, r.next_funding_time⟩ })
      ?_ b (initCombined targets) h0 kv hkv
    intro r k fr hfr
    exact hfr
  intro kv hkv
  refine applyPass_inv (fun kv => kv.2.symbol = kv.1 ∧ kv.2.average_rate = none)
    (fun r fr => { fr with bybit := some ⟨r.funding_rate, r.next_funding_time⟩ })
    ?_ y (applyBinance (initCombined targets) b) h1 kv hkv
  intro r k fr hfr
  exact hfr

/-- `setAverage` does not change the symbol or the per-exchange fields. -/
theorem setAverage_fields (fr : FundingRow) :
    (setAverage fr).symbol = fr.symbol ∧ collectRates (setAverage fr) = collectRates fr := by
  by_cases h : collectRates fr = []
  · simp [setAverage, h]
  · constructor
    · simp [setAverage, h]
    · simp only [setAverage, if_neg h]
      simp [collectRates]

/-- The keys of the initial `combined` dict are the requested symbols with
first-occurrence deduplication, in order. -/
theorem keys_initCombined (targets : List String) :
    (initCombined targets).map Prod.fst = dedupFirst targets := by
  have aux : ∀ (ts : List String) (acc : List (String × FundingRow)),
      (ts.foldl (fun a s => dictInsert s (⟨s, none, none, none⟩ : FundingRow) a) acc).map
          Prod.fst
        = ts.foldl (fun ks s => if s ∈ ks then ks else ks ++ [s]) (acc.map Prod.fst) := by
    intro ts
    induction ts with
    | nil => intro acc; rfl
    | cons s ts ih =>
      intro acc
      rw [List.foldl_cons, List.foldl_cons, ih, keys_dictInsert]
  exact aux targets []

/-- The merge passes do not change the key sequence. -/
theorem keys_applyPass (upd : SourceRow → FundingRow → FundingRow) :
    ∀ (rows : List SourceRow) (c : List (String × FundingRow)),
      (rows.foldl (fun acc r => dictModify r.symbol (upd r) acc) c).map Prod.fst
        = c.map Prod.fst := by
  intro rows
  induction rows with
  | nil => intro c; rfl
  | cons r rows ih => intro c; rw [List.foldl_cons, ih, keys_dictModify]

theorem keys_applyBinance (c : List (String × FundingRow)) (rows : List SourceRow) :
    (applyBinance c rows).map Prod.fst = c.map Prod.fst :=
  keys_applyPass _ rows c

theorem keys_applyBybit (c : List (String × FundingRow)) (rows : List SourceRow) :
    (applyBybit c rows).map Prod.fst = c.map Prod.fst :=
  keys_applyPass _ rows c

theorem mem_dedupFirst (x : String) (l : List String) : x ∈ dedupFirst l ↔ x ∈ l := by
  have aux : ∀ (l acc : List String),
      x ∈ l.foldl (fun ks s => if s ∈ ks then ks else ks ++ [s]) acc ↔ x ∈ acc ∨ x ∈ l := by
    intro l
    induction l with
    | nil => intro acc; simp
    | cons s l ih =>
      intro acc
      rw [List.foldl_cons, ih]
      by_cases hs : s ∈ acc
      · rw [if_pos hs]
        constructor
        · rintro (h | h)
          · exact Or.inl h
          · exact Or.inr (List.mem_cons_of_mem _ h)
        · rintro (h | h)
          · exact Or.inl h
          · rcases List.mem_cons.mp h with h2 | h2
            · exact Or.inl (h2 ▸ hs)
            · exact Or.inr h2
      · rw [if_neg hs]
        simp only [List.mem_append, List.mem_cons, List.mem_singleton]
        tauto
  have h := aux l []
  simpa [dedupFirst] using h

theorem nodup_dedupFirst (l : List String) : (dedupFirst l).Nodup := by
  have aux : ∀ (l acc : List String), acc.Nodup →
      (l.foldl (fun ks s => if s ∈ ks then ks else ks ++ [s]) acc).Nodup := by
    intro l
    induction l with
    | nil => intro acc h; exact h
    | cons s l ih =>
      intro acc h
      rw [List.foldl_cons]
      by_cases hs : s ∈ acc
      · rw [if_pos hs]; exact ih acc h
      · rw [if_neg hs]
        refine ih _ ?_
        simp [List.nodup_append, h, hs]
  exact aux l [] List.nodup_nil

/-- `_simple_prices_cache_key` applied to the `coin_ids or DEFAULT` list is
the same key as applied to the raw argument. -/
theorem simplePricesCacheKey_effective (x : Option (List String)) :
    simplePricesCacheKey (some (effectiveIds x)) = simplePricesCacheKey x := by
  cases x with
  | none => rfl
  | some l => cases l with
    | nil => rfl
    | cons a as => rfl

/-- A `filterMap` whose function succeeds on every element is a `map`. -/
theorem filterMap_eq_map_getD {α β : Type} [Inhabited β] (f : α → Option β) :
    ∀ l : List α, (∀ a ∈ l, (f a).isSome) →
      l.filterMap f = l.map (fun a => (f a).getD default) := by
  intro l
  induction l with
  | nil => intro _; rfl
  | cons a l ih =>
    intro h
    have ha := h a (List.mem_cons_self a l)
    obtain ⟨b, hb⟩ := Option.isSome_iff_exists.mp ha
    rw [List.filterMap_cons, hb, List.map_cons,
      ih (fun x hx => h x (List.mem_cons_of_mem a hx))]
    simp [hb]

/-- A row found in the `row_by_id` index comes from the indexed row list
and carries the looked-up id. -/
theorem rowById_lookup (rows : List PriceRow) (k : String) (r : PriceRow) :
    dictGet k (rowById rows) = some r → r ∈ rows ∧ r.id = k := by
  have aux : ∀ (rows : List PriceRow) (acc : List (String × PriceRow)),
      dictGet k (rows.foldl
        (fun a row => if row.id = "" then a else dictInsert row.id row a) acc) = some r →
      (r ∈ rows ∧ r.id = k) ∨ dictGet k acc = some r := by
    intro rows
    induction rows with
    | nil => intro acc h; exact Or.inr h
    | cons row rows ih =>
      intro acc h
      rcases ih _ h with h2 | h2
      · exact Or.inl ⟨List.mem_cons_of_mem _ h2.1, h2.2⟩
      · beta_reduce at h2
        by_cases hid : row.id = ""
        · rw [if_pos hid] at h2
          exact Or.inr h2
        · rw [if_neg hid, dictGet_dictInsert] at h2
          by_cases hk : row.id = k
          · rw [if_pos hk] at h2
            have hrow : row = r := Option.some.inj h2
            subst hrow
            exact Or.inl ⟨List.mem_cons_self _ _, hk⟩
          · rw [if_neg hk] at h2
            exact Or.inr h2
  intro h
  rcases aux rows [] h with h2 | h2
  · exact h2
  · cases h2

/-- The superset search returns the projection of the first covering cache
entry, skipping the non-covering prefix. -/
theorem findSupersetSlice_eq (req : List String) (post : List (String × PricesCacheEntry))
    (k : String) (entry : PricesCacheEntry) (hcov : coversRequested req entry = true) :
    ∀ pre : List (String × PricesCacheEntry),
      (∀ p ∈ pre, coversRequested req p.2 = false) →
      findSupersetSlice req (pre ++ (k, entry) :: post) =
        some (req.filterMap (fun cid => dictGet cid (rowById entry.data))) := by
  intro pre
  induction pre with
  | nil =>
    intro _
    simp [findSupersetSlice, hcov]
  | cons p pre ih =>
    intro hpre
    obtain ⟨k0, e0⟩ := p
    have hp := hpre (k0, e0) (List.mem_cons_self _ _)
    rw [List.cons_append]
    simp only [findSupersetSlice, hp]
    exact ih (fun q hq => hpre q (List.mem_cons_of_mem _ hq))

/-- `get_market_overview` never touches the simple-prices cache. -/
theorem getMarketOverview_frame (st : CGState) (now : ℤ)
    (g : FetchResult GlobalPayload) (t : FetchResult TrendingPayload)
    (o : Overview) (s : CGState)
    (h : getMarketOverview st now g t = .ok (o, s)) :
    s.simple_prices_cache = st.simple_prices_cache := by
  simp only [getMarketOverview] at h
  split at h
  · cases h; rfl
  · split at h
    · cases h; rfl
    · split at h
      · cases h; rfl
      · cases h

/-- `get_cached_simple_prices` reads only the simple-prices cache field. -/
theorem getCachedSimplePrices_congr (st1 st2 : CGState) (ids : Option (List String))
    (h : st1.simple_prices_cache = st2.simple_prices_cache) :
    getCachedSimplePrices st1 ids = getCachedSimplePrices st2 ids := by
  simp [getCachedSimplePrices, h]

/-! ### Theorems settling the claims -/

/-- C1 (code-bug demonstration): with the simple-prices cache holding
`V = [btcRow]` from a prior successful fetch (cached at time 0, read at time
100, beyond the 60-second TTL, so this is not a fresh hit) and the live
fetch failing with a connectivity error, the `/market/prices` route returns
exactly `V` without raising — but with `is_stale = false` and no
`fallback_reason`. The service-layer fallback inside `get_simple_prices`
absorbs the failure before the route's stale-marking `except` branch
(`market.py:33-37`) can observe it, leaving that branch dead and the stale
response unflagged, contrary to the claim and to the route's own fallback
code. -/
theorem pricesRouteServesStaleUnflagged :
    isCacheFresh demoPricesState.cache_ttl_seconds 100 0 = false ∧
    getCachedSimplePrices demoPricesState (some ["bitcoin"]) = some [btcRow] ∧
    getMarketPrices demoPricesState 100 (some "bitcoin") .requestError =
      .ok (⟨[btcRow], false, "coingecko", none⟩, demoPricesState) :=
  ⟨rfl, rfl, by decide⟩

/-- C2 counterexample: the fresh-hit bypass does not hold for the
fear-greed resources. With the current cache holding the value 10, a
resolve call (`get_current_safe`) whose live fetch succeeds with value 77
returns 77, not the cached value: the fear-greed service has no freshness
check at all, so the returned value is not independent of the live fetch's
outcome, contradicting the claim for this resource. -/
theorem fearGreedCacheDoesNotBypassFetch :
    getCachedCurrent demoFngState = some demoFng ∧
    demoFng.value = 10 ∧
    (getCurrentSafe demoFngState (.ok [⟨77, "Extreme Greed", 2000⟩])).map
        (fun p => p.1.value) = .ok 77 := by
  decide

/-- C2 (amended): the fresh-hit bypass holds for the two CoinGecko
resources. If the simple-prices cache holds an entry under the exact
requested key whose age is within the TTL (inclusive bound:
`now - cached_at ≤ ttl`), `get_simple_prices` returns exactly the cached
rows with the state unchanged, for every possible live-fetch outcome; the
same holds for `get_market_overview` and the overview cache. The fear-greed
resources have no freshness check and always attempt the live fetch. -/
theorem freshHitBypassPricesAndOverview :
    (∀ (st : CGState) (now : ℤ) (ids : Option (List String)) (entry : PricesCacheEntry),
      dictGet (simplePricesCacheKey (some (effectiveIds ids))) st.simple_prices_cache = some entry →
      now - entry.cached_at ≤ st.cache_ttl_seconds →
      ∀ fetch, getSimplePrices st now ids fetch = .ok (entry.data, st)) ∧
    (∀ (st : CGState) (now : ℤ) (oentry : OverviewCacheEntry),
      st.overview_cache = some oentry →
      now - oentry.cached_at ≤ st.cache_ttl_seconds →
      ∀ gfetch tfetch, getMarketOverview st now gfetch tfetch = .ok (oentry.data, st)) := by
  constructor
  · intro st now ids entry h1 h2 fetch
    have hf : getFreshCachedSimplePrices st now (some (effectiveIds ids)) = some entry.data := by
      simp [getFreshCachedSimplePrices, h1, isCacheFresh, h2]
    simp [getSimplePrices, hf]
  · intro st now oentry h1 h2 gfetch tfetch
    have hf : getFreshCachedMarketOverview st now = some oentry.data := by
      simp [getFreshCachedMarketOverview, h1, isCacheFresh, h2]
    simp [getMarketOverview, hf]

/-- C2 witness: concrete fresh hits at time 30 against entries cached at
time 0 with ttl 60, for both resources, with a failing fetch outcome. -/
theorem freshHitBypassPricesAndOverviewInstance :
    getSimplePrices demoPricesState 30 (some ["bitcoin"]) .requestError =
      .ok ([btcRow], demoPricesState) ∧
    getMarketOverview demoOverviewState 30 .requestError .requestError =
      .ok (demoOverview, demoOverviewState) :=
  ⟨freshHitBypassPricesAndOverview.1 demoPricesState 30 (some ["bitcoin"]) ⟨0, [btcRow]⟩
      (by decide) (by decide) .requestError,
   freshHitBypassPricesAndOverview.2 demoOverviewState 30 ⟨0, demoOverview⟩
      (by decide) (by decide) .requestError .requestError⟩

/-- C3: no-cache fatal propagation, for all four resources. When the
any-age cache read comes back absent and the live fetch fails, each
operation re-raises the original `HTTPException` — it never returns a
synthesized success. -/
theorem noCacheFatalPropagation :
    (∀ (st : CGState) (now : ℤ) (ids : Option (List String)) (exc : HTTPException)
        (fetch : FetchResult SimplePayload),
      requestJson fetch = .error exc →
      getCachedSimplePrices st (some (effectiveIds ids)) = none →
      getSimplePrices st now ids fetch = .error exc) ∧
    (∀ (st : CGState) (now : ℤ) (exc : HTTPException)
        (gfetch : FetchResult GlobalPayload) (tfetch : FetchResult TrendingPayload),
      overviewLive gfetch tfetch = .error exc →
      st.overview_cache = none →
      getMarketOverview st now gfetch tfetch = .error exc) ∧
    (∀ (st : FngState) (exc : HTTPException) (fetch : FetchResult (List FngItem)),
      getCurrent st fetch = .error exc →
      st.current_cache = none →
      getCurrentSafe st fetch = .error exc) ∧
    (∀ (st : FngState) (days : ℕ) (exc : HTTPException) (fetch : ℕ → FetchResult (List FngItem)),
      getHistory st days fetch = .error exc →
      getCachedHistory st days = none →
      getHistorySafe st days fetch = .error exc) := by
  refine ⟨?_, ?_, ?_, ?_⟩
  · intro st now ids exc fetch hfe hcache
    have hd : dictGet (simplePricesCacheKey (some (effectiveIds ids))) st.simple_prices_cache
        = none := by
      revert hcache
      unfold getCachedSimplePrices
      cases dictGet (simplePricesCacheKey (some (effectiveIds ids))) st.simple_prices_cache with
      | none => intro _; rfl
      | some e => intro h; cases h
    have hf : getFreshCachedSimplePrices st now (some (effectiveIds ids)) = none := by
      simp [getFreshCachedSimplePrices, hd]
    simp [getSimplePrices, hf, hfe, hcache]
  · intro st now exc gfetch tfetch hfe hcache
    have hf : getFreshCachedMarketOverview st now = none := by
      simp [getFreshCachedMarketOverview, hcache]
    simp [getMarketOverview, hf, hfe, getCachedMarketOverview, hcache]
  · intro st exc fetch hfe hcache
    simp [getCurrentSafe, hfe, getCachedCurrent, hcache]
  · intro st days exc fetch hfe hcache
    simp [getHistorySafe, hfe, hcache]

/-- C3 witness: against empty caches, each of the four operations re-raises
its service's connectivity error when the live fetch fails. -/
theorem noCacheFatalPropagationInstance :
    getSimplePrices emptyCG 0 (some ["bitcoin"]) .requestError =
      .error ⟨502, "無法連線 CoinGecko API"⟩ ∧
    getMarketOverview emptyCG 0 .requestError .requestError =
      .error ⟨502, "無法連線 CoinGecko API"⟩ ∧
    getCurrentSafe emptyFng .requestError =
      .error ⟨502, "無法連線 Fear & Greed API"⟩ ∧
    getHistorySafe emptyFng 30 (fun _ => .requestError) =
      .error ⟨502, "無法連線 Fear & Greed API"⟩ :=
  ⟨noCacheFatalPropagation.1 emptyCG 0 (some ["bitcoin"]) _ .requestError (by decide) (by decide),
   noCacheFatalPropagation.2.1 emptyCG 0 _ .requestError .requestError (by decide) rfl,
   noCacheFatalPropagation.2.2.1 emptyFng _ .requestError (by decide) rfl,
   noCacheFatalPropagation.2.2.2 emptyFng 30 _ (fun _ => .requestError) (by decide) rfl⟩

/-- C10: cache isolation. A successful `get_current` stores the unannotated
record `v`; a later failing `get_current_safe` returns `v` annotated with
`is_stale`, `data_source` and `fallback_reason`, but (because every cache
read and write deep-copies) leaves the stored cache entry unchanged, and a
subsequent `get_cached_current` still returns the original unannotated
`v`. -/
theorem cacheIsolationDeepCopy
    (st st1 : FngState) (f1 f2 : FetchResult (List FngItem)) (v : FngCurrent)
    (exc : HTTPException)
    (h1 : getCurrent st f1 = .ok (v, st1))
    (h2 : getCurrent st1 f2 = .error exc) :
    v.is_stale = none ∧ v.data_source = none ∧ v.fallback_reason = none ∧
    st1.current_cache = some v ∧
    getCurrentSafe st1 f2 =
      .ok ({ v with
              is_stale := some true
              data_source := some "alternative_me_cache"
              fallback_reason := some exc.detail }, st1) ∧
    getCachedCurrent st1 = some v := by
  cases f1 with
  | httpStatusError code => simp [getCurrent, fngRequest] at h1
  | requestError => simp [getCurrent, fngRequest] at h1
  | ok items =>
    cases items with
    | nil => simp [getCurrent, fngRequest] at h1
    | cons latest rest =>
      simp only [getCurrent, fngRequest, Except.ok.injEq, Prod.mk.injEq] at h1
      obtain ⟨hv, hst⟩ := h1
      subst hv
      subst hst
      refine ⟨rfl, rfl, rfl, rfl, ?_, rfl⟩
      simp [getCurrentSafe, h2, getCachedCurrent]

/-- C10 witness: concrete run — a successful fetch (value 10) populates the
cache, a following connectivity failure returns the annotated copy while
the cache still holds the unannotated record. -/
theorem cacheIsolationDeepCopyInstance :
    demoFng.is_stale = none ∧ demoFng.data_source = none ∧ demoFng.fallback_reason = none ∧
    demoFngState.current_cache = some demoFng ∧
    getCurrentSafe demoFngState .requestError =
      .ok ({ demoFng with
              is_stale := some true
              data_source := some "alternative_me_cache"
              fallback_reason := some "無法連線 Fear & Greed API" }, demoFngState) ∧
    getCachedCurrent demoFngState = some demoFng :=
  cacheIsolationDeepCopy emptyFng demoFngState (.ok [⟨10, "Extreme Fear", 1000⟩]) .requestError
    demoFng ⟨502, "無法連線 Fear & Greed API"⟩ (by decide) (by decide)

/-- C7: Fear & Greed history length bound. For a requested `days ≥ 1`,
`get_history` asks upstream for `limit = min(days, 100)` items; when
upstream honors that limit, the returned history is the normalized items in
upstream order (newest first), has length at most `min(days, 100)`, carries
the four fields of `mkHistRow` per element, and `get_history_safe` returns
the same on the live path. -/
theorem fearGreedHistoryLengthBound
    (st : FngState) (days : ℕ) (fetch : ℕ → FetchResult (List FngItem)) (items : List FngItem)
    (_hdays : 1 ≤ days)
    (hfetch : fetch (min days 100) = .ok items)
    (hbound : items.length ≤ min days 100) :
    getHistory st days fetch =
      .ok (items.map mkHistRow,
        { st with history_cache := fngHistPut days (items.map mkHistRow) st.history_cache }) ∧
    (items.map mkHistRow).length ≤ min days 100 ∧
    getHistorySafe st days fetch =
      .ok (items.map mkHistRow,
        { st with history_cache := fngHistPut days (items.map mkHistRow) st.history_cache }) := by
  have h1 : getHistory st days fetch =
      .ok (items.map mkHistRow,
        { st with history_cache := fngHistPut days (items.map mkHistRow) st.history_cache }) := by
    simp [getHistory, fngRequest, hfetch]
  refine ⟨h1, by simpa using hbound, ?_⟩
  simp [getHistorySafe, h1]

/-- C7 witness: `days = 30`, two items from upstream. -/
theorem fearGreedHistoryLengthBoundInstance :
    getHistory emptyFng 30 demoHistFetch =
      .ok (demoHistItems.map mkHistRow,
        { emptyFng with
            history_cache := fngHistPut 30 (demoHistItems.map mkHistRow) emptyFng.history_cache }) ∧
    (demoHistItems.map mkHistRow).length ≤ min 30 100 ∧
    getHistorySafe emptyFng 30 demoHistFetch =
      .ok (demoHistItems.map mkHistRow,
        { emptyFng with
            history_cache := fngHistPut 30 (demoHistItems.map mkHistRow) emptyFng.history_cache }) :=
  fearGreedHistoryLengthBound emptyFng 30 demoHistFetch demoHistItems
    (by decide) (by decide) (by decide)

/-- C8 counterexample: the simple-prices cache key is not invariant under
permutation of the requested coin ids — `["bitcoin", "ethereum"]` and
`["ethereum", "bitcoin"]` produce different keys, because
`_simple_prices_cache_key` joins the ids as given, without sorting. -/
theorem cacheKeyNotPermutationInvariant :
    simplePricesCacheKey (some ["bitcoin", "ethereum"]) ≠
      simplePricesCacheKey (some ["ethereum", "bitcoin"]) := by
  decide

/-- C8 (amended): the cache key is the comma-join of the ids in the order
given (default ids when none are given); a successful fetch starting from
an empty cache stores exactly one entry under that key, a later fresh read
with the identical order hits it, and a fresh read whose key differs (in
particular, any permutation yielding a different join) misses it. -/
theorem cacheKeyOrderDependent :
    (∀ (l : List String), l ≠ [] → simplePricesCacheKey (some l) = String.intercalate "," l) ∧
    (∀ (ttl now : ℤ) (oc : Option OverviewCacheEntry) (l1 l2 : List String)
        (payload : SimplePayload) (rows : List PriceRow) (st2 : CGState),
      0 ≤ ttl →
      getSimplePrices ⟨ttl, [], oc⟩ now (some l1) (.ok payload) = .ok (rows, st2) →
      getFreshCachedSimplePrices st2 now (some l1) = some rows ∧
      (simplePricesCacheKey (some l2) ≠ simplePricesCacheKey (some l1) →
        getFreshCachedSimplePrices st2 now (some l2) = none)) := by
  constructor
  · intro l hl
    cases l with
    | nil => exact absurd rfl hl
    | cons a as => rfl
  · intro ttl now oc l1 l2 payload rows st2 httl hrun
    have hfresh : getFreshCachedSimplePrices ⟨ttl, [], oc⟩ now (some (effectiveIds (some l1)))
        = none := by
      simp [getFreshCachedSimplePrices, dictGet]
    rw [getSimplePrices] at hrun
    rw [hfresh] at hrun
    simp only [requestJson, Except.ok.injEq, Prod.mk.injEq] at hrun
    obtain ⟨hrows, hst⟩ := hrun
    subst hrows
    subst hst
    constructor
    · simp [getFreshCachedSimplePrices, dictInsert, dictGet, simplePricesCacheKey_effective,
        isCacheFresh]
      omega
    · intro hne
      have hne2 : simplePricesCacheKey (some l1) ≠ simplePricesCacheKey (some l2) :=
        fun h => hne h.symm
      simp [getFreshCachedSimplePrices, dictInsert, dictGet, simplePricesCacheKey_effective, hne2]

/-- C8 witness: caching `["bitcoin", "ethereum"]` then reading freshly with
the same order hits; reading with `["ethereum", "bitcoin"]` misses. -/
theorem cacheKeyOrderDependentInstance :
    simplePricesCacheKey (some ["bitcoin", "ethereum"]) =
      String.intercalate "," ["bitcoin", "ethereum"] ∧
    getFreshCachedSimplePrices demoTwoState 0 (some ["bitcoin", "ethereum"]) =
      some [btcRow, ethRow] ∧
    getFreshCachedSimplePrices demoTwoState 0 (some ["ethereum", "bitcoin"]) = none := by
  have h := cacheKeyOrderDependent.2 60 0 none ["bitcoin", "ethereum"] ["ethereum", "bitcoin"]
    demoPayload [btcRow, ethRow] demoTwoState (by decide) (by decide)
  exact ⟨cacheKeyOrderDependent.1 ["bitcoin", "ethereum"] (by decide), h.1, h.2 (by decide)⟩

/-- C4: superset projection on the stale path only. When the exact key
misses, the any-age read serves from the first cache entry (iteration
order) covering every requested id, returning exactly one row per
requested id in requested order, each drawn from that entry and carrying
the requested id; the fresh read never does this — whenever it returns a
value, the exact key is present, fresh, and the value is that entry's
data unprojected. -/
theorem supersetProjectionStalePathOnly :
    (∀ (st : CGState) (ids : Option (List String)) (pre post : List (String × PricesCacheEntry))
        (k : String) (entry : PricesCacheEntry),
      st.simple_prices_cache = pre ++ (k, entry) :: post →
      dictGet (simplePricesCacheKey ids) st.simple_prices_cache = none →
      (∀ p ∈ pre, coversRequested (effectiveIds ids) p.2 = false) →
      coversRequested (effectiveIds ids) entry = true →
      ∃ rows, getCachedSimplePrices st ids = some rows ∧
        rows.length = (effectiveIds ids).length ∧
        ∀ i : Fin (effectiveIds ids).length,
          ∃ hr : i.1 < rows.length,
            (rows.get ⟨i.1, hr⟩).id = (effectiveIds ids).get i ∧
            rows.get ⟨i.1, hr⟩ ∈ entry.data) ∧
    (∀ (st : CGState) (now : ℤ) (ids : Option (List String)) (res : List PriceRow),
      getFreshCachedSimplePrices st now ids = some res →
      ∃ entry, dictGet (simplePricesCacheKey ids) st.simple_prices_cache = some entry ∧
        isCacheFresh st.cache_ttl_seconds now entry.cached_at = true ∧
        res = entry.data) := by
  constructor
  · intro st ids pre post k entry hcache hnone hpre hcov
    have hall : ∀ cid ∈ effectiveIds ids, (dictGet cid (rowById entry.data)).isSome := by
      intro cid hcid
      exact List.all_eq_true.mp hcov cid hcid
    have hslice : getCachedSimplePrices st ids =
        some ((effectiveIds ids).filterMap (fun cid => dictGet cid (rowById entry.data))) := by
      simp only [getCachedSimplePrices, hnone]
      rw [hcache]
      exact findSupersetSlice_eq _ post k entry hcov pre hpre
    rw [filterMap_eq_map_getD _ _ hall] at hslice
    refine ⟨_, hslice, by simp, ?_⟩
    intro i
    have hr : i.1 <
        ((effectiveIds ids).map
          (fun cid => (dictGet cid (rowById entry.data)).getD default)).length := by
      simp [i.2]
    refine ⟨hr, ?_⟩
    have hidx : ((effectiveIds ids).map
          (fun cid => (dictGet cid (rowById entry.data)).getD default)).get ⟨i.1, hr⟩ =
        (dictGet ((effectiveIds ids).get i) (rowById entry.data)).getD default := by
      simp [List.get_eq_getElem, List.getElem_map]
    obtain ⟨r, hrr⟩ := Option.isSome_iff_exists.mp
      (hall _ (List.get_mem (effectiveIds ids) i.1 i.2))
    have hlook := rowById_lookup entry.data _ r hrr
    rw [hidx, hrr]
    simp only [Option.getD_some]
    exact ⟨hlook.2, hlook.1⟩
  · intro st now ids res h
    simp only [getFreshCachedSimplePrices] at h
    split at h
    · cases h
    · rename_i entry heq
      split at h
      · rename_i hfresh
        cases h
        exact ⟨entry, heq, hfresh, rfl⟩
      · cases h

/-- C4 witness: caching `{bitcoin, ethereum, solana}` then reading stale
data for `["bitcoin", "solana"]` projects exactly those two rows in
requested order from the cached entry; and a fresh read that succeeds
(`demoTwoState`, exact key, age 0) did so through the exact fresh entry. -/
theorem supersetProjectionStalePathOnlyInstance :
    (∃ rows, getCachedSimplePrices demoSupersetState (some ["bitcoin", "solana"]) = some rows ∧
      rows.length = (effectiveIds (some ["bitcoin", "solana"])).length ∧
      ∀ i : Fin (effectiveIds (some ["bitcoin", "solana"])).length,
        ∃ hr : i.1 < rows.length,
          (rows.get ⟨i.1, hr⟩).id = (effectiveIds (some ["bitcoin", "solana"])).get i ∧
          rows.get ⟨i.1, hr⟩ ∈ (⟨0, [btcRow, ethRow, solRow]⟩ : PricesCacheEntry).data) ∧
    (∃ entry, dictGet (simplePricesCacheKey (some ["bitcoin", "ethereum"]))
        demoTwoState.simple_prices_cache = some entry ∧
      isCacheFresh demoTwoState.cache_ttl_seconds 0 entry.cached_at = true ∧
      [btcRow, ethRow] = entry.data) :=
  ⟨supersetProjectionStalePathOnly.1 demoSupersetState (some ["bitcoin", "solana"])
      [] [] "bitcoin,ethereum,solana" ⟨0, [btcRow, ethRow, solRow]⟩
      rfl (by decide) (by simp) (by decide),
   supersetProjectionStalePathOnly.2 demoTwoState 0 (some ["bitcoin", "ethereum"])
      [btcRow, ethRow] (by decide)⟩

/-- C5: partial dashboard degradation. When the prices and overview tasks
both resolve successfully and the funding task fails, the composition
succeeds with `funding = []`, `is_stale = true`,
`data_source = "partial_cache"` and the funding tag in `stale_reasons`,
while prices and overview carry the live values. Conversely, a prices (or
overview) failure with no cached value makes the whole composition fail
with the 502 `HTTPException` of the corresponding essential resource. -/
theorem partialDashboardDegradation :
    (∀ (st st1 st2 : CGState) (now : ℤ) (gen : String) (coin_ids : Option String)
        (pfetch : FetchResult SimplePayload) (gfetch : FetchResult GlobalPayload)
        (tfetch : FetchResult TrendingPayload) (prices : List PriceRow) (overview : Overview),
      getSimplePrices st now (parseCsvParam coin_ids) pfetch = .ok (prices, st1) →
      getMarketOverview st1 now gfetch tfetch = .ok (overview, st2) →
      getDashboardData st now gen coin_ids pfetch gfetch tfetch (.error ()) =
        .ok ({ generated_at := gen
               prices := prices
               overview := overview
               funding := []
               is_stale := true
               data_source := "partial_cache"
               stale_reasons := ["funding: unavailable"] }, st2)) ∧
    (∀ (st : CGState) (now : ℤ) (gen : String) (coin_ids : Option String)
        (pfetch : FetchResult SimplePayload) (gfetch : FetchResult GlobalPayload)
        (tfetch : FetchResult TrendingPayload) (exc : HTTPException)
        (fr : Except Unit (List FundingRow)),
      getSimplePrices st now (parseCsvParam coin_ids) pfetch = .error exc →
      getCachedSimplePrices st (parseCsvParam coin_ids) = none →
      getDashboardData st now gen coin_ids pfetch gfetch tfetch fr =
        .error ⟨502, "無法取得即時價格資料，且沒有可用快取"⟩) ∧
    (∀ (st st1 : CGState) (now : ℤ) (gen : String) (coin_ids : Option String)
        (pfetch : FetchResult SimplePayload) (gfetch : FetchResult GlobalPayload)
        (tfetch : FetchResult TrendingPayload) (prices : List PriceRow) (exc : HTTPException)
        (fr : Except Unit (List FundingRow)),
      getSimplePrices st now (parseCsvParam coin_ids) pfetch = .ok (prices, st1) →
      getMarketOverview st1 now gfetch tfetch = .error exc →
      getCachedMarketOverview st1 = none →
      getDashboardData st now gen coin_ids pfetch gfetch tfetch fr =
        .error ⟨502, "無法取得市場概覽資料，且沒有可用快取"⟩) := by
  refine ⟨?_, ?_, ?_⟩
  · intro st st1 st2 now gen coin_ids pfetch gfetch tfetch prices overview hP hO
    simp [getDashboardData, hP, hO]
  · intro st now gen coin_ids pfetch gfetch tfetch exc fr hPe hc
    cases ho : getMarketOverview st now gfetch tfetch with
    | ok pair =>
      obtain ⟨o, so⟩ := pair
      have hnone : getCachedSimplePrices so (parseCsvParam coin_ids) = none := by
        rw [getCachedSimplePrices_congr so st _ (getMarketOverview_frame st now gfetch tfetch o so ho)]
        exact hc
      simp [getDashboardData, hPe, ho, hnone]
    | error e =>
      simp [getDashboardData, hPe, ho, hc]
  · intro st st1 now gen coin_ids pfetch gfetch tfetch prices exc fr hP hOe hoc
    simp [getDashboardData, hP, hOe, hoc]

/-- C5 witness: with fresh cache hits for prices and overview and a failed
funding task, the dashboard degrades partially; with empty caches and
failing fetches, the prices-essential (resp. overview-essential) 502 is
raised. -/
theorem partialDashboardDegradationInstance :
    getDashboardData demoDashState 30 "g" (some "bitcoin,ethereum")
        .requestError .requestError .requestError (.error ()) =
      .ok ({ generated_at := "g"
             prices := [btcRow, ethRow]
             overview := demoOverview
             funding := []
             is_stale := true
             data_source := "partial_cache"
             stale_reasons := ["funding: unavailable"] }, demoDashState) ∧
    getDashboardData emptyCG 0 "g" (some "bitcoin")
        .requestError .requestError .requestError (.error ()) =
      .error ⟨502, "無法取得即時價格資料，且沒有可用快取"⟩ ∧
    getDashboardData demoTwoState 30 "g" (some "bitcoin,ethereum")
        .requestError .requestError .requestError (.error ()) =
      .error ⟨502, "無法取得市場概覽資料，且沒有可用快取"⟩ :=
  ⟨partialDashboardDegradation.1 demoDashState demoDashState demoDashState 30 "g"
      (some "bitcoin,ethereum") .requestError .requestError .requestError
      [btcRow, ethRow] demoOverview (by decide) (by decide),
   partialDashboardDegradation.2.1 emptyCG 0 "g" (some "bitcoin")
      .requestError .requestError .requestError ⟨502, "無法連線 CoinGecko API"⟩ (.error ())
      (by decide) (by decide),
   partialDashboardDegradation.2.2 demoTwoState demoTwoState 30 "g" (some "bitcoin,ethereum")
      .requestError .requestError .requestError [btcRow, ethRow]
      ⟨502, "無法連線 CoinGecko API"⟩ (.error ()) (by decide) (by decide) (by decide)⟩

/-- C6: funding-rate merge averaging. In every merged row, `average_rate`
is the arithmetic mean of the non-null per-exchange rates present in that
row (null when neither exchange supplied one); in particular, when Binance
reports 1/10000 for BTCUSDT and the whole Bybit call fails, the merged
BTCUSDT row has `average_rate = 1/10000` and a null `bybit` field. -/
theorem fundingMergeAveraging :
    (∀ (symbols : Option (List String)) (bf : FetchResult (List BinanceItem))
        (yf : FetchResult (List BybitItem)) (row : FundingRow),
      row ∈ getMergedFundingRates symbols bf yf →
      row.average_rate =
        (if collectRates row = [] then none
         else some ((collectRates row).sum / (collectRates row).length))) ∧
    getMergedFundingRates (some ["BTCUSDT"])
        (.ok [⟨some "BTCUSDT", some (1/10000), some 42⟩]) .requestError = [demoMergedRow] := by
  constructor
  · intro symbols bf yf row hrow
    simp only [getMergedFundingRates, List.mem_map] at hrow
    obtain ⟨kv, hkv, hrow⟩ := hrow
    have hinv := combined_inv (effectiveSymbols symbols) _ _ kv hkv
    subst hrow
    by_cases hr : collectRates kv.2 = []
    · rw [show setAverage kv.2 = kv.2 from by simp [setAverage, hr]]
      rw [if_pos hr]
      exact hinv.2
    · have hcr := (setAverage_fields kv.2).2
      rw [hcr, if_neg hr]
      simp only [setAverage, if_neg hr]
  · simp [getMergedFundingRates, effectiveSymbols, fetchBinance, fetchBybit, initCombined,
      applyBinance, applyBybit, dictInsert, dictModify, setAverage, collectRates, demoMergedRow]

/-- C6 witness: the concrete BTCUSDT row of the Binance-only scenario
satisfies the averaging relation. -/
theorem fundingMergeAveragingInstance :
    demoMergedRow.average_rate =
      (if collectRates demoMergedRow = [] then none
       else some ((collectRates demoMergedRow).sum / (collectRates demoMergedRow).length)) :=
  fundingMergeAveraging.1 (some ["BTCUSDT"]) (.ok [⟨some "BTCUSDT", some (1/10000), some 42⟩])
    .requestError demoMergedRow
    (by rw [fundingMergeAveraging.2]; exact List.mem_singleton.mpr rfl)

/-- C9: funding merge totality. `get_merged_funding_rates` absorbs each
exchange's HTTP-status/connectivity failure (embedded: it is a total
function of the two fetch outcomes) and returns one row per requested
symbol — keys are the requested symbols first-occurrence-deduplicated, in
requested order, with duplicates collapsed by the `combined` dict
comprehension. When both exchanges fail, every row is all-null rather than
an error. Consequently, when the dashboard's funding task resolves to this
function's value, the composition never records `"funding: unavailable"`:
that degradation branch is unreachable via upstream fetch failures. -/
theorem fundingMergeTotality :
    (∀ (symbols : Option (List String)) (bf : FetchResult (List BinanceItem))
        (yf : FetchResult (List BybitItem)),
      (getMergedFundingRates symbols bf yf).map (fun row => row.symbol) =
        dedupFirst (effectiveSymbols symbols) ∧
      (dedupFirst (effectiveSymbols symbols)).Nodup ∧
      (∀ s, s ∈ dedupFirst (effectiveSymbols symbols) ↔ s ∈ effectiveSymbols symbols)) ∧
    (∀ symbols : Option (List String),
      getMergedFundingRates symbols .requestError .requestError =
        (dedupFirst (effectiveSymbols symbols)).map
          (fun s => (⟨s, none, none, none⟩ : FundingRow))) ∧
    (∀ (st : CGState) (now : ℤ) (gen : String) (coin_ids : Option String)
        (pfetch : FetchResult SimplePayload) (gfetch : FetchResult GlobalPayload)
        (tfetch : FetchResult TrendingPayload) (f : List FundingRow)
        (d : DashboardData) (st2 : CGState),
      getDashboardData st now gen coin_ids pfetch gfetch tfetch (.ok f) = .ok (d, st2) →
      d.funding = f ∧ "funding: unavailable" ∉ d.stale_reasons) := by
  refine ⟨?_, ?_, ?_⟩
  · intro symbols bf yf
    refine ⟨?_, nodup_dedupFirst _, fun s => mem_dedupFirst s _⟩
    simp only [getMergedFundingRates]
    rw [List.map_map]
    have hc : ∀ kv ∈ applyBybit
        (applyBinance (initCombined (effectiveSymbols symbols))
          (match fetchBinance (effectiveSymbols symbols) bf with | .ok e => e | .error _ => []))
        (match fetchBybit (effectiveSymbols symbols) yf with | .ok e => e | .error _ => []),
        ((fun row => row.symbol) ∘ fun kv => setAverage kv.2) kv = Prod.fst kv := by
      intro kv hkv
      have h1 := (setAverage_fields kv.2).1
      have h2 := (combined_inv _ _ _ kv hkv).1
      simp only [Function.comp]
      rw [h1, h2]
    rw [List.map_congr_left hc, keys_applyBybit, keys_applyBinance, keys_initCombined]
  · intro symbols
    simp only [getMergedFundingRates, fetchBinance, fetchBybit]
    have h1 : ∀ kv ∈ initCombined (effectiveSymbols symbols),
        (fun kv => setAverage kv.2) kv =
          ((fun s => (⟨s, none, none, none⟩ : FundingRow)) ∘ Prod.fst) kv := by
      intro kv hkv
      have h2 := mem_initCombined _ kv hkv
      simp only [Function.comp]
      rw [h2]
      simp [setAverage, collectRates]
    calc (applyBybit (applyBinance (initCombined (effectiveSymbols symbols)) []) []).map
          (fun kv => setAverage kv.2)
        = (initCombined (effectiveSymbols symbols)).map (fun kv => setAverage kv.2) := rfl
      _ = (initCombined (effectiveSymbols symbols)).map
            ((fun s => (⟨s, none, none, none⟩ : FundingRow)) ∘ Prod.fst) :=
          List.map_congr_left h1
      _ = ((initCombined (effectiveSymbols symbols)).map Prod.fst).map
            (fun s => (⟨s, none, none, none⟩ : FundingRow)) := by rw [List.map_map]
      _ = (dedupFirst (effectiveSymbols symbols)).map
            (fun s => (⟨s, none, none, none⟩ : FundingRow)) := by rw [keys_initCombined]
  · intro st now gen coin_ids pfetch gfetch tfetch f d st2 h
    simp only [getDashboardData] at h
    split at h
    · cases h
    · rename_i prices preasons pstale heqP
      split at h
      · cases h
      · rename_i overview oreasons ostale heqO
        cases h
        refine ⟨rfl, ?_⟩
        have hP : preasons = [] ∨ preasons = ["prices: coingecko_cache"] := by
          split at heqP
          · cases heqP; left; rfl
          · split at heqP
            · cases heqP
            · cases heqP; right; rfl
        have hO : oreasons = [] ∨ oreasons = ["overview: coingecko_cache"] := by
          split at heqO
          · cases heqO; left; rfl
          · split at heqO
            · cases heqO
            · cases heqO; right; rfl
        rcases hP with hP | hP <;> rcases hO with hO | hO <;> subst hP <;> subst hO <;> simp

/-- C9 witness: both exchanges failing yields one all-null row per distinct
requested symbol, and a concrete dashboard run whose funding task resolved
to that value carries it with no funding degradation tag. -/
theorem fundingMergeTotalityInstance :
    (getMergedFundingRates (some ["BTCUSDT", "ETHUSDT"]) .requestError .requestError).map
        (fun row => row.symbol) = dedupFirst (effectiveSymbols (some ["BTCUSDT", "ETHUSDT"])) ∧
    getMergedFundingRates (some ["BTCUSDT", "ETHUSDT"]) .requestError .requestError =
      (dedupFirst (effectiveSymbols (some ["BTCUSDT", "ETHUSDT"]))).map
        (fun s => (⟨s, none, none, none⟩ : FundingRow)) ∧
    (demoDashboard.funding = demoFundingBothFail ∧
      "funding: unavailable" ∉ demoDashboard.stale_reasons) :=
  ⟨(fundingMergeTotality.1 (some ["BTCUSDT", "ETHUSDT"]) .requestError .requestError).1,
   fundingMergeTotality.2.1 (some ["BTCUSDT", "ETHUSDT"]),
   fundingMergeTotality.2.2 demoDashState 30 "g" (some "bitcoin,ethereum")
     .requestError .requestError .requestError demoFundingBothFail
     demoDashboard demoDashState (by decide)⟩

end BusyEdge
